import Mathlib

/- Shallow embedding of the decode/cache pipeline of the mGBA 3DS FireRed
   overlay (src/platform/3ds/sprite.c) and of its party-record decoder
   (src/platform/3ds/overlay.c).  Bytes are Nat values reduced mod 256 at
   every read through a uint8_t pointer, multi-byte integers are
   little-endian combinations of such bytes, and byte buffers are lists. -/

/-- Read one byte of a byte buffer.  Out-of-range reads yield 0; every value
is reduced mod 256, modelling a read through a uint8_t pointer. -/
def u8get (l : List Nat) (i : Nat) : Nat := l.getD i 0 % 256

/-- Little-endian 16-bit read, as done by memcpy into a uint16_t. -/
def read16 (l : List Nat) (off : Nat) : Nat := u8get l off + 256 * u8get l (off + 1)

/-- Little-endian 32-bit read, as done by memcpy into a uint32_t. -/
def read32 (l : List Nat) (off : Nat) : Nat :=
  u8get l off + 256 * u8get l (off + 1) + 65536 * u8get l (off + 2) +
    16777216 * u8get l (off + 3)

/-- Little-endian byte serialization of a 32-bit word. -/
def bytes32 (w : Nat) : List Nat :=
  [w % 256, w / 256 % 256, w / 65536 % 256, w / 16777216 % 256]

/-- One back-reference copy of decompLZ77 (sprite.c lines 82-86): for each of
len iterations, while the output count di is still below size, append
dst[di - off] to the output.  A backward offset reaching before the start of
the output is undefined in the source format (the C code would read before
the buffer); that read is modelled as the byte 0. -/
def lzCopy (out : List Nat) (off len size : Nat) : List Nat :=
  match len with
  | 0 => out
  | n + 1 =>
    if out.length < size then
      lzCopy (out ++ [if off ≤ out.length then out.getD (out.length - off) 0 else 0])
        off n size
    else out

/-- One chunk of decompLZ77 (sprite.c lines 77-89).  A set flag bit consumes
two source bytes b1 b2 encoding a copy of length (b1 shr 4) + 3 from backward
offset ((b1 and 15) shl 8 or b2) + 1; a clear flag bit copies one literal
source byte.  Returns the new source index together with the new output. -/
def lzChunk (src : List Nat) (size si flags bit : Nat) (out : List Nat) : Nat × List Nat :=
  if Nat.testBit flags bit then
    (si + 2,
      lzCopy out (u8get src si % 16 * 256 + u8get src (si + 1) + 1)
        (u8get src si / 16 + 3) size)
  else
    (si + 1, out ++ [u8get src si])

/-- The inner chunk loop of decompLZ77 (sprite.c line 76): the bits of the
flag byte are consumed MSB first, each one only while the output count is
still below size. -/
def lzBits (src : List Nat) (size flags : Nat) : Nat → Nat → List Nat → Nat × List Nat
  | 0, si, out =>
    if out.length < size then lzChunk src size si flags 0 out else (si, out)
  | bit + 1, si, out =>
    if out.length < size then
      lzBits src size flags bit (lzChunk src size si flags (bit + 1) out).1
        (lzChunk src size si flags (bit + 1) out).2
    else (si, out)

/-- The outer flag-byte loop of decompLZ77 (sprite.c lines 74-91), written
with explicit fuel.  Every iteration that runs the body grows the output by
at least one byte, so a fuel of size bounds the number of iterations of the
C while loop; decompLZ77 below passes exactly that fuel. -/
def lzLoop (src : List Nat) (size : Nat) : Nat → Nat → List Nat → List Nat
  | 0, _, out => out
  | fuel + 1, si, out =>
    if out.length < size then
      lzLoop src size fuel (lzBits src size (u8get src si) 7 (si + 1) out).1
        (lzBits src size (u8get src si) 7 (si + 1) out).2
    else out

/-- Declared decompressed size: header bytes 1-3, little-endian
(sprite.c line 69). -/
def lzSize (src : List Nat) : Nat :=
  u8get src 1 + 256 * u8get src 2 + 65536 * u8get src 3

/-- decompLZ77 (sprite.c lines 62-93).  The result pairs the C return value
with the list of output bytes written to dst, in order; both failure paths
return 0 having written nothing. -/
def decompLZ77 (src : List Nat) (maxOut : Nat) : Nat × List Nat :=
  if u8get src 0 ≠ 16 then (0, [])
  else if maxOut < lzSize src then (0, [])
  else (lzSize src, lzLoop src (lzSize src) (lzSize src) 4 [])

/-- mortonIdx (sprite.c lines 99-105): interleave the low three bits of x
and y as y2 x2 y1 x1 y0 x0. -/
def mortonIdx (x y : Nat) : Nat :=
  (x &&& 1) ||| ((y &&& 1) <<< 1) ||| ((x &&& 2) <<< 1) ||| ((y &&& 2) <<< 2) |||
    ((x &&& 4) <<< 2) ||| ((y &&& 4) <<< 3)

/-- texOffset (sprite.c lines 109-111): pixel offset in the Morton-ordered
texture data. -/
def texOffset (x y texW : Nat) : Nat :=
  ((y >>> 3) * (texW >>> 3) + (x >>> 3)) * 64 + mortonIdx (x &&& 7) (y &&& 7)

/-- Luma of the grayscale variant (sprite.c line 166), including the final
uint8_t cast. -/
def lumOf (r g b : Nat) : Nat := (r * 77 + g * 150 + b * 29) / 256 % 256

/-- RGB555 color of palette entry i: two little-endian bytes at offset 2*i
of the palette source (sprite.c line 161). -/
def palColor (palSrc : List Nat) (i : Nat) : Nat := read16 palSrc (2 * i)

/-- One palette entry (sprite.c lines 158-171).  Each 5-bit channel is
expanded by a left shift of 3 (a multiplication by 8); under the grayscale
variant all three channels are replaced by the luma; the channels are packed
as (r shl 24) or (g shl 16) or (b shl 8) or 0xFF, and since every channel is
below 256 the bitwise or of those disjoint byte lanes equals the sum
written here. -/
def paletteEntry (c : Nat) (grayscale : Bool) : Nat :=
  if grayscale then
    lumOf (c % 32 * 8) (c / 32 % 32 * 8) (c / 1024 % 32 * 8) * 16777216 +
      lumOf (c % 32 * 8) (c / 32 % 32 * 8) (c / 1024 % 32 * 8) * 65536 +
      lumOf (c % 32 * 8) (c / 32 % 32 * 8) (c / 1024 % 32 * 8) * 256 + 255
  else
    c % 32 * 8 * 16777216 + c / 32 % 32 * 8 * 65536 + c / 1024 % 32 * 8 * 256 + 255

/-- The 16-entry palette built by decodeSpriteSlot (sprite.c lines 157-171):
entry 0 is forced fully transparent, entries 1-15 are converted from the
RGB555 palette source. -/
def buildPalette (palSrc : List Nat) (grayscale : Bool) : List Nat :=
  0 :: (List.range 15).map (fun k => paletteEntry (palColor palSrc (k + 1)) grayscale)

/-- State of the sprite texture cache (sprite.c lines 29-32), plus, for each
slot, the key whose decoded image the texture data of the slot currently holds
(decodeSpriteSlot fills the texture as a function of the requested key, so
one Nat per slot models the pixel contents). -/
structure CacheState where
  keys : Fin 8 → Nat
  img : Fin 8 → Nat
  inited : Fin 8 → Bool
  nextEvict : Fin 8

/-- Round-robin cursor advance (sprite.c line 244). -/
def advanceEvict (c : Fin 8) : Fin 8 := ⟨(c.val + 1) % 8, Nat.mod_lt _ (by decide)⟩

/-- Cache key: the species with the grayscale flag folded into bit 15
(sprite.c line 222). -/
def cacheKey (species : Nat) (grayscale : Bool) : Nat :=
  species ||| (if grayscale then 32768 else 0)

/-- findOrDecode (sprite.c lines 219-250).  The success of decodeSpriteSlot
is abstracted by the flag ok, since it depends only on the ROM bytes for the
requested species.  The first component of the result is the slot handed to
the caller (none models a NULL return).  decodeSpriteSlot returns at all its
failure points before touching the texture of the slot or sTexInited, so on
failure neither keys, img nor inited changes; on the all-slots-full path the
cursor is advanced before the decode is attempted, hence in both outcomes. -/
def findOrDecode (st : CacheState) (species : Nat) (grayscale ok : Bool) :
    Option (Fin 8) × CacheState :=
  match (List.finRange 8).find?
      (fun i => st.inited i && (st.keys i == cacheKey species grayscale)) with
  | some i => (some i, st)
  | none =>
    match (List.finRange 8).find? (fun i => ! st.inited i) with
    | some i =>
      if ok then
        (some i,
          { st with
            keys := fun j => if j = i then cacheKey species grayscale else st.keys j
            img := fun j => if j = i then cacheKey species grayscale else st.img j
            inited := fun j => if j = i then true else st.inited j })
      else (none, st)
    | none =>
      if ok then
        (some st.nextEvict,
          { st with
            keys := fun j => if j = st.nextEvict then cacheKey species grayscale else st.keys j
            img := fun j => if j = st.nextEvict then cacheKey species grayscale else st.img j
            nextEvict := advanceEvict st.nextEvict })
      else (none, { st with nextEvict := advanceEvict st.nextEvict })

/-- sSubstructOrder (overlay.c lines 56-69): the 24 orderings of the four
substructure roles 0 = Growth, 1 = Attacks, 2 = EVs, 3 = Misc, indexed by
pid mod 24. -/
def sSubstructOrder : List (List Nat) :=
  [[0,1,2,3], [0,1,3,2], [0,2,1,3], [0,2,3,1], [0,3,1,2], [0,3,2,1],
   [1,0,2,3], [1,0,3,2], [1,2,0,3], [1,2,3,0], [1,3,0,2], [1,3,2,0],
   [2,0,1,3], [2,0,3,1], [2,1,0,3], [2,1,3,0], [2,3,0,1], [2,3,1,0],
   [3,0,1,2], [3,0,2,1], [3,1,0,2], [3,1,2,0], [3,2,0,1], [3,2,1,0]]

/-- findSubstructOffset (overlay.c lines 219-227): the first position of the
requested role in the row selected by pid mod 24, times 12; 0 if absent
(never hit for roles 0-3).  The default 4 fed to getD matches no role. -/
def findSubstructOffset (pid which : Nat) : Nat :=
  match (List.range 4).find?
      (fun pos => (sSubstructOrder.getD (pid % 24) []).getD pos 4 == which) with
  | some pos => pos * 12
  | none => 0

/-- decryptSubstructs (overlay.c lines 209-216): the 48-byte region at
offset 0x20 of the record is read as 12 little-endian 32-bit words, each is
xor-ed with the key, and the words are written back little-endian. -/
def decryptSubstructs (pokemon : List Nat) (key : Nat) : List Nat :=
  (List.range 12).flatMap (fun i => bytes32 ((read32 pokemon (32 + 4 * i)) ^^^ key))

/-- Decryption key of readSlot (overlay.c lines 284-287): personality value
xor original-trainer id, the two 32-bit header words of the record. -/
def slotKey (slot : List Nat) : Nat := read32 slot 0 ^^^ read32 slot 4

/-- The decrypted 48-byte substructure region of a record. -/
def slotDec (slot : List Nat) : List Nat := decryptSubstructs slot (slotKey slot)

/-- Offset of the Growth substructure (role 0) for this record. -/
def growthOff (slot : List Nat) : Nat := findSubstructOffset (read32 slot 0) 0

/-- Offset of the Attacks substructure (role 1) for this record. -/
def attackOff (slot : List Nat) : Nat := findSubstructOffset (read32 slot 0) 1

/-- Offset of the EVs substructure (role 2) for this record. -/
def evsOff (slot : List Nat) : Nat := findSubstructOffset (read32 slot 0) 2

/-- Offset of the Misc substructure (role 3) for this record. -/
def miscOff (slot : List Nat) : Nat := findSubstructOffset (read32 slot 0) 3

/-- Decrypted species id of a record: the 16-bit word at the start of the
Growth substructure (overlay.c line 291). -/
def slotSpecies (slot : List Nat) : Nat := read16 (slotDec slot) (growthOff slot)

/-- The packed 30-bit IV word at offset 4 of the Misc substructure. -/
def ivData (slot : List Nat) : Nat := read32 (slotDec slot) (miscOff slot + 4)

/-- The fields of struct PokeSlot (overlay.c lines 256-273) that are binary
decoded from the record itself.  The two ROM-derived display strings
(nickname, speciesName) are text decoding of other tables and are omitted;
atk, def, spe, spa, spd are renamed with a Stat suffix because def is a
keyword. -/
structure PokeSlot where
  species : Nat
  exp : Nat
  moves : List Nat
  pp : List Nat
  level : Nat
  nature : Nat
  curHP : Nat
  maxHP : Nat
  atkStat : Nat
  defStat : Nat
  speStat : Nat
  spaStat : Nat
  spdStat : Nat
  evs : List Nat
  ivs : List Nat
  status : Nat
deriving DecidableEq

/-- readSlot (overlay.c lines 275-352) on the 100-byte record itself; wram
base arithmetic is outside the claims.  none models the return value 0
(invalid, an empty party slot), some models the return value 1 together
with the fields written to out. -/
def readSlot (slot : List Nat) (speciesCount : Nat) : Option PokeSlot :=
  if slotSpecies slot = 0 ∨ speciesCount ≤ slotSpecies slot then none
  else
    some
      { species := slotSpecies slot
        exp := read32 (slotDec slot) (growthOff slot + 4)
        moves := [read16 (slotDec slot) (attackOff slot),
                  read16 (slotDec slot) (attackOff slot + 2),
                  read16 (slotDec slot) (attackOff slot + 4),
                  read16 (slotDec slot) (attackOff slot + 6)]
        pp := [u8get (slotDec slot) (attackOff slot + 8),
               u8get (slotDec slot) (attackOff slot + 9),
               u8get (slotDec slot) (attackOff slot + 10),
               u8get (slotDec slot) (attackOff slot + 11)]
        level := u8get slot 84
        nature := read32 slot 0 % 25
        curHP := read16 slot 86
        maxHP := read16 slot 88
        atkStat := read16 slot 90
        defStat := read16 slot 92
        speStat := read16 slot 94
        spaStat := read16 slot 96
        spdStat := read16 slot 98
        evs := [u8get (slotDec slot) (evsOff slot),
                u8get (slotDec slot) (evsOff slot + 1),
                u8get (slotDec slot) (evsOff slot + 2),
                u8get (slotDec slot) (evsOff slot + 3),
                u8get (slotDec slot) (evsOff slot + 4),
                u8get (slotDec slot) (evsOff slot + 5)]
        ivs := [ivData slot % 32, ivData slot / 32 % 32, ivData slot / 1024 % 32,
                ivData slot / 32768 % 32, ivData slot / 1048576 % 32,
                ivData slot / 33554432 % 32]
        status := read32 slot 80 }

/-- A texture cache whose 8 slots are all in use with the distinct keys
1 to 8 and whose round-robin cursor sits at slot 0. -/
def fullCache2 : CacheState :=
  { keys := fun i => i.val + 1, img := fun i => i.val + 1,
    inited := fun _ => true, nextEvict := 0 }

/-- A second such full cache, used for the round-robin claims. -/
def fullCache7 : CacheState :=
  { keys := fun i => i.val + 1, img := fun i => i.val + 1,
    inited := fun _ => true, nextEvict := 0 }

/-- A compressed stream: marker 0x10, declared size 2, one flag byte of
eight literal chunks, literal bytes 9 and 8. -/
def c4src : List Nat := [16, 2, 0, 0, 0, 9, 8]

/-- An all-zero party record: pid = otid = 0 and decrypted species 0. -/
def zSlot : List Nat := List.replicate 100 0

/-- A party record with pid = otid = 0 whose Growth substructure starts with
species byte 25; everything else is zero. -/
def vSlot : List Nat := List.replicate 32 0 ++ 25 :: List.replicate 67 0

/-- The decoded fields readSlot produces for vSlot. -/
def vOut : PokeSlot :=
  { species := 25, exp := 0, moves := [0, 0, 0, 0], pp := [0, 0, 0, 0],
    level := 0, nature := 0, curHP := 0, maxHP := 0, atkStat := 0,
    defStat := 0, speStat := 0, spaStat := 0, spdStat := 0,
    evs := [0, 0, 0, 0, 0, 0], ivs := [0, 0, 0, 0, 0, 0], status := 0 }

/-- A 100-byte record with zero header identifiers and non-trivial bytes in
the encrypted region. -/
def cPoke : List Nat := (List.range 100).map (fun i => if i < 8 then 0 else i)

lemma u8get_lt (l : List Nat) (i : Nat) : u8get l i < 256 := Nat.mod_lt _ (by decide)

lemma lumOf_lt (r g b : Nat) : lumOf r g b < 256 := Nat.mod_lt _ (by decide)

lemma lzCopy_append_ex (off size : Nat) :
    ∀ (len : Nat) (out : List Nat), ∃ t, lzCopy out off len size = out ++ t := by
  intro len
  induction len with
  | zero => intro out; exact ⟨[], by simp [lzCopy]⟩
  | succ n ih =>
    intro out
    simp only [lzCopy]
    by_cases h : out.length < size
    · rw [if_pos h]
      obtain ⟨t, ht⟩ :=
        ih (out ++ [if off ≤ out.length then out.getD (out.length - off) 0 else 0])
      exact ⟨_, ht.trans (List.append_assoc _ _ _)⟩
    · rw [if_neg h]; exact ⟨[], by simp⟩

lemma lzCopy_mono (off size len : Nat) (out : List Nat) :
    out.length ≤ (lzCopy out off len size).length := by
  obtain ⟨t, ht⟩ := lzCopy_append_ex off size len out
  simp [ht]

lemma lzCopy_le (off size : Nat) :
    ∀ (len : Nat) (out : List Nat), out.length ≤ size →
      (lzCopy out off len size).length ≤ size := by
  intro len
  induction len with
  | zero => intro out h; simpa [lzCopy] using h
  | succ n ih =>
    intro out h
    simp only [lzCopy]
    by_cases hlt : out.length < size
    · rw [if_pos hlt]
      exact ih _ (by simp; omega)
    · rw [if_neg hlt]; exact h

lemma lzCopy_grows (off size len : Nat) (out : List Nat)
    (h : out.length < size) (hl : 1 ≤ len) :
    out.length < (lzCopy out off len size).length := by
  cases len with
  | zero => omega
  | succ n =>
    simp only [lzCopy]
    rw [if_pos h]
    calc out.length
        < (out ++ [if off ≤ out.length then out.getD (out.length - off) 0 else 0]).length := by
          simp
      _ ≤ _ := lzCopy_mono off size n _

lemma lzCopy_stop (off size len : Nat) (out : List Nat) (h : size ≤ out.length) :
    lzCopy out off len size = out := by
  cases len with
  | zero => simp [lzCopy]
  | succ n => simp [lzCopy, Nat.not_lt.mpr h]

lemma lzCopy_length (off size : Nat) :
    ∀ (len : Nat) (out : List Nat), out.length + len ≤ size →
      (lzCopy out off len size).length = out.length + len := by
  intro len
  induction len with
  | zero => intro out h; simp [lzCopy]
  | succ n ih =>
    intro out h
    simp only [lzCopy]
    rw [if_pos (by omega)]
    rw [ih _ (by simp; omega)]
    simp
    omega

lemma lzCopy_getD_lt (off size len : Nat) (out : List Nat) (i : Nat) (h : i < out.length) :
    (lzCopy out off len size).getD i 0 = out.getD i 0 := by
  obtain ⟨t, ht⟩ := lzCopy_append_ex off size len out
  rw [ht, List.getD_append _ _ _ _ h]

lemma lzCopy_serial (off size : Nat) :
    ∀ (len : Nat) (out : List Nat), 1 ≤ off → off ≤ out.length → out.length + len ≤ size →
      ∀ k, k < len →
        (lzCopy out off len size).getD (out.length + k) 0 =
          (lzCopy out off len size).getD (out.length + k - off) 0 := by
  intro len
  induction len with
  | zero => intro out _ _ _ k hk; omega
  | succ n ih =>
    intro out h1 h2 h3 k hk
    have hlt : out.length < size := by omega
    simp only [lzCopy]
    rw [if_pos hlt, if_pos h2]
    cases k with
    | zero =>
      have e1 : (lzCopy (out ++ [out.getD (out.length - off) 0]) off n size).getD
          (out.length + 0) 0 = out.getD (out.length - off) 0 := by
        rw [lzCopy_getD_lt _ _ _ _ _ (by simp)]
        rw [List.getD_append_right _ _ _ _ (by simp)]
        simp
      have e2 : (lzCopy (out ++ [out.getD (out.length - off) 0]) off n size).getD
          (out.length + 0 - off) 0 = out.getD (out.length - off) 0 := by
        rw [lzCopy_getD_lt _ _ _ _ _ (by simp; omega)]
        rw [List.getD_append _ _ _ _ (by omega)]
        norm_num
      rw [e1, e2]
    | succ m =>
      have hrec := ih (out ++ [out.getD (out.length - off) 0]) h1 (by simp; omega)
        (by simp; omega) m (by omega)
      have hlen : (out ++ [out.getD (out.length - off) 0]).length = out.length + 1 := by simp
      rw [hlen] at hrec
      have e3 : out.length + 1 + m = out.length + (m + 1) := by omega
      rw [e3] at hrec
      exact hrec

lemma lzChunk_le (src : List Nat) (size si flags bit : Nat) (out : List Nat)
    (h : out.length < size) : (lzChunk src size si flags bit out).2.length ≤ size := by
  unfold lzChunk
  by_cases hb : Nat.testBit flags bit = true
  · rw [if_pos hb]
    exact lzCopy_le _ _ _ _ (le_of_lt h)
  · rw [if_neg hb]
    simp only [List.length_append, List.length_cons, List.length_nil]
    omega

lemma lzChunk_grows (src : List Nat) (size si flags bit : Nat) (out : List Nat)
    (h : out.length < size) : out.length < (lzChunk src size si flags bit out).2.length := by
  unfold lzChunk
  by_cases hb : Nat.testBit flags bit = true
  · rw [if_pos hb]
    exact lzCopy_grows _ _ _ _ h (by omega)
  · rw [if_neg hb]
    simp

lemma lzBits_mono (src : List Nat) (size flags : Nat) :
    ∀ (bit si : Nat) (out : List Nat), out.length ≤ (lzBits src size flags bit si out).2.length := by
  intro bit
  induction bit with
  | zero =>
    intro si out
    simp only [lzBits]
    by_cases h : out.length < size
    · rw [if_pos h]
      exact le_of_lt (lzChunk_grows src size si flags 0 out h)
    · rw [if_neg h]
  | succ n ih =>
    intro si out
    simp only [lzBits]
    by_cases h : out.length < size
    · rw [if_pos h]
      exact le_trans (le_of_lt (lzChunk_grows src size si flags (n + 1) out h)) (ih _ _)
    · rw [if_neg h]

lemma lzBits_le (src : List Nat) (size flags : Nat) :
    ∀ (bit si : Nat) (out : List Nat), out.length ≤ size →
      (lzBits src size flags bit si out).2.length ≤ size := by
  intro bit
  induction bit with
  | zero =>
    intro si out h
    simp only [lzBits]
    by_cases hlt : out.length < size
    · rw [if_pos hlt]
      exact lzChunk_le src size si flags 0 out hlt
    · rw [if_neg hlt]; exact h
  | succ n ih =>
    intro si out h
    simp only [lzBits]
    by_cases hlt : out.length < size
    · rw [if_pos hlt]
      exact ih _ _ (lzChunk_le src size si flags (n + 1) out hlt)
    · rw [if_neg hlt]; exact h

lemma lzBits_grows (src : List Nat) (size flags bit si : Nat) (out : List Nat)
    (h : out.length < size) : out.length < (lzBits src size flags bit si out).2.length := by
  cases bit with
  | zero =>
    simp only [lzBits]
    rw [if_pos h]
    exact lzChunk_grows src size si flags 0 out h
  | succ n =>
    simp only [lzBits]
    rw [if_pos h]
    exact lt_of_lt_of_le (lzChunk_grows src size si flags (n + 1) out h) (lzBits_mono _ _ _ _ _ _)

lemma lzBits_stop (src : List Nat) (size flags bit si : Nat) (out : List Nat) (h : size ≤ out.length) :
    lzBits src size flags bit si out = (si, out) := by
  cases bit with
  | zero => simp [lzBits, Nat.not_lt.mpr h]
  | succ n => simp [lzBits, Nat.not_lt.mpr h]

lemma lzLoop_len (src : List Nat) (size : Nat) :
    ∀ (fuel si : Nat) (out : List Nat), out.length ≤ size → size ≤ out.length + fuel →
      (lzLoop src size fuel si out).length = size := by
  intro fuel
  induction fuel with
  | zero => intro si out h1 h2; simp only [lzLoop]; omega
  | succ n ih =>
    intro si out h1 h2
    simp only [lzLoop]
    by_cases h : out.length < size
    · rw [if_pos h]
      have hg := lzBits_grows src size (u8get src si) 7 (si + 1) out h
      have hl := lzBits_le src size (u8get src si) 7 (si + 1) out h1
      exact ih _ _ hl (by omega)
    · rw [if_neg h]; omega

/-- C4: for every compressed input whose header byte 0 is the marker 0x10
and whose declared little-endian 24-bit size fits the output capacity,
decompLZ77 returns exactly the declared size and writes exactly that many
output bytes, and both the chunk loop and a back-reference copy consume
nothing further as soon as the output count has reached the declared size,
even in the middle of the 8 chunks of a flag byte. -/
theorem C4_decomp_exact_size (src : List Nat) (maxOut : Nat)
    (h1 : u8get src 0 = 16) (h2 : lzSize src ≤ maxOut) :
    (decompLZ77 src maxOut).1 = lzSize src ∧
    (decompLZ77 src maxOut).2.length = lzSize src ∧
    (∀ flags bit si out, lzSize src ≤ List.length out →
      lzBits src (lzSize src) flags bit si out = (si, out)) ∧
    (∀ off len out, lzSize src ≤ List.length out →
      lzCopy out off len (lzSize src) = out) := by
  have hd : decompLZ77 src maxOut = (lzSize src, lzLoop src (lzSize src) (lzSize src) 4 []) := by
    unfold decompLZ77
    rw [if_neg (by simp [h1]), if_neg (by omega)]
  refine ⟨by rw [hd], ?_, ?_, ?_⟩
  · rw [hd]
    exact lzLoop_len src (lzSize src) (lzSize src) 4 [] (by simp) (by simp)
  · intro flags bit si out h
    exact lzBits_stop src (lzSize src) flags bit si out h
  · intro off len out h
    exact lzCopy_stop off (lzSize src) len out h

/-- C4 witness: the theorem applied to a concrete stream of marker 0x10,
declared size 2 and two literal bytes. -/
theorem C4_witness :
    (decompLZ77 c4src 2).1 = lzSize c4src ∧
    (decompLZ77 c4src 2).2.length = lzSize c4src ∧
    lzBits c4src (lzSize c4src) 255 3 0 [1, 2] = (0, [1, 2]) ∧
    lzCopy [1, 2] 5 4 (lzSize c4src) = [1, 2] := by
  have h := C4_decomp_exact_size c4src 2 (by decide) (by decide)
  exact ⟨h.1, h.2.1, h.2.2.1 255 3 0 [1, 2] (by decide), h.2.2.2 5 4 [1, 2] (by decide)⟩

/-- C5: a back-reference copy proceeds byte by byte from output position
pos - off forward: every copied byte equals the byte of the final output
located off positions earlier, so when off is smaller than the copy length
the bytes written earlier within the same copy are re-read by that copy
(byte-serial semantics, not a block copy from the pre-copy snapshot).  The
prior output is preserved and exactly len bytes are appended. -/
theorem C5_backref_serial (out : List Nat) (off len size : Nat)
    (h1 : 1 ≤ off) (h2 : off ≤ out.length) (h3 : out.length + len ≤ size) :
    (lzCopy out off len size).length = out.length + len ∧
    (∀ i, i < out.length → (lzCopy out off len size).getD i 0 = out.getD i 0) ∧
    (∀ k, k < len →
      (lzCopy out off len size).getD (out.length + k) 0 =
        (lzCopy out off len size).getD (out.length + k - off) 0) := by
  refine ⟨lzCopy_length off size len out h3, ?_, lzCopy_serial off size len out h1 h2 h3⟩
  intro i hi
  exact lzCopy_getD_lt off size len out i hi

/-- C5 witness: the theorem applied to the overlapping copy off = 1,
len = 3 over the single prior byte 7; the serial semantics yields 7 7 7 7,
whereas a block copy reading the not-yet-written destination would not. -/
theorem C5_witness :
    lzCopy [7] 1 3 9 = [7, 7, 7, 7] ∧
    (lzCopy [7] 1 3 9).length = List.length [7] + 3 ∧
    (lzCopy [7] 1 3 9).getD (List.length [7] + 2) 0 =
      (lzCopy [7] 1 3 9).getD (List.length [7] + 2 - 1) 0 := by
  have h := C5_backref_serial [7] 1 3 9 (by decide) (by decide) (by decide)
  exact ⟨by decide, h.1, h.2.2 2 (by decide)⟩

/-- C6: decompLZ77 returns 0 whenever header byte 0 differs from the marker
0x10, and whenever the declared size exceeds the capacity maxOut; in both
failure cases it returns having written no output byte at all, in
particular none at or beyond index maxOut. -/
theorem C6_decomp_failure (src : List Nat) (maxOut : Nat) :
    (u8get src 0 ≠ 16 → decompLZ77 src maxOut = (0, [])) ∧
    (maxOut < lzSize src → decompLZ77 src maxOut = (0, [])) := by
  constructor
  · intro h
    unfold decompLZ77
    rw [if_pos h]
  · intro h
    unfold decompLZ77
    by_cases h0 : u8get src 0 ≠ 16
    · rw [if_pos h0]
    · rw [if_neg h0, if_pos h]

/-- C6 witness: the theorem applied to a stream with a bad marker 0x11 and
to a stream declaring size 10 against capacity 5. -/
theorem C6_witness :
    decompLZ77 [17] 5 = (0, []) ∧ decompLZ77 [16, 10, 0, 0] 5 = (0, []) :=
  ⟨(C6_decomp_failure [17] 5).1 (by decide),
   (C6_decomp_failure [16, 10, 0, 0] 5).2 (by decide)⟩

lemma mortonIdx_lt : ∀ x, x < 8 → ∀ y, y < 8 → mortonIdx x y < 64 := by decide

lemma mortonIdx_inj :
    ∀ x y a b : Fin 8,
      mortonIdx x.val y.val = mortonIdx a.val b.val → x = a ∧ y = b := by decide

lemma and_seven (x : Nat) (h : x < 64) : x &&& 7 = x % 8 := by
  revert h
  revert x
  decide

lemma texOffset_eq (x y : Nat) (hx : x < 64) (hy : y < 64) :
    texOffset x y 64 = (y / 8 * 8 + x / 8) * 64 + mortonIdx (x % 8) (y % 8) := by
  unfold texOffset
  rw [and_seven x hx, and_seven y hy, Nat.shiftRight_eq_div_pow,
    Nat.shiftRight_eq_div_pow, Nat.shiftRight_eq_div_pow]

/-- C10: for every pixel coordinate pair in the 64 by 64 destination, the
Morton-order destination word index texOffset lies below 4096 and is
injective, so every 32-bit pixel write of the tile walk lands inside the
destination buffer and no two pixels alias the same destination word. -/
theorem C10_texOffset_bounds_inj (x y a b : Nat)
    (hx : x < 64) (hy : y < 64) (ha : a < 64) (hb : b < 64) :
    texOffset x y 64 < 4096 ∧ (texOffset x y 64 = texOffset a b 64 → x = a ∧ y = b) := by
  have hmx : mortonIdx (x % 8) (y % 8) < 64 :=
    mortonIdx_lt _ (Nat.mod_lt _ (by decide)) _ (Nat.mod_lt _ (by decide))
  have hma : mortonIdx (a % 8) (b % 8) < 64 :=
    mortonIdx_lt _ (Nat.mod_lt _ (by decide)) _ (Nat.mod_lt _ (by decide))
  rw [texOffset_eq x y hx hy, texOffset_eq a b ha hb]
  constructor
  · omega
  · intro he
    have hm : mortonIdx (x % 8) (y % 8) = mortonIdx (a % 8) (b % 8) := by omega
    have hmi := mortonIdx_inj ⟨x % 8, Nat.mod_lt _ (by decide)⟩
      ⟨y % 8, Nat.mod_lt _ (by decide)⟩ ⟨a % 8, Nat.mod_lt _ (by decide)⟩
      ⟨b % 8, Nat.mod_lt _ (by decide)⟩ hm
    have e1 : x % 8 = a % 8 := congrArg Fin.val hmi.1
    have e2 : y % 8 = b % 8 := congrArg Fin.val hmi.2
    omega

/-- C10 witness: the theorem applied at the pixels (5, 9) and (9, 5): the
first offset is in bounds and the two offsets differ. -/
theorem C10_witness :
    texOffset 5 9 64 < 4096 ∧ texOffset 5 9 64 ≠ texOffset 9 5 64 := by
  refine ⟨(C10_texOffset_bounds_inj 5 9 9 5 (by decide) (by decide) (by decide) (by decide)).1, ?_⟩
  intro h
  have hc := (C10_texOffset_bounds_inj 5 9 9 5 (by decide) (by decide) (by decide) (by decide)).2 h
  omega

lemma unpack4 (r g b : Nat) (hr : r < 256) (hg : g < 256) (hb : b < 256) :
    (r * 16777216 + g * 65536 + b * 256 + 255) / 16777216 % 256 = r ∧
    (r * 16777216 + g * 65536 + b * 256 + 255) / 65536 % 256 = g ∧
    (r * 16777216 + g * 65536 + b * 256 + 255) / 256 % 256 = b ∧
    (r * 16777216 + g * 65536 + b * 256 + 255) % 256 = 255 :=
  ⟨by omega, by omega, by omega, by omega⟩

lemma buildPalette_getD (palSrc : List Nat) (g : Bool) (i : Nat)
    (h1 : 1 ≤ i) (h2 : i < 16) :
    (buildPalette palSrc g).getD i 0 = paletteEntry (palColor palSrc i) g := by
  obtain ⟨k, rfl⟩ : ∃ k, i = k + 1 := ⟨i - 1, by omega⟩
  have hk : k < 15 := by omega
  unfold buildPalette
  rw [List.getD_cons_succ]
  rw [List.getD_eq_getElem _ _ (by simpa using hk)]
  simp

/-- C1 counterexample: for the RGB555 input 0b0111110000000000 (31744, the
5 bits of the blue channel all set, red and green zero) in palette entry 1, the
blue channel of the produced pixel is 248, not 255: the conversion does not
replicate the top 3 bits of the 5-bit channel into the low 3 bits. -/
theorem C1_counterexample :
    palColor [0, 0, 0, 124] 1 = 31744 ∧
    (buildPalette [0, 0, 0, 124] false).getD 1 0 / 256 % 256 = 248 ∧
    (buildPalette [0, 0, 0, 124] false).getD 1 0 / 256 % 256 ≠ 255 ∧
    (buildPalette [0, 0, 0, 124] false).getD 1 0 / 16777216 % 256 = 0 ∧
    (buildPalette [0, 0, 0, 124] false).getD 1 0 / 65536 % 256 = 0 := by decide

/-- C1 as amended: each palette entry 1 through 15 converts RGB555 to the
32-bit pixel by expanding every 5-bit channel v to the 8-bit value v * 8
(a left shift by 3, so the low 3 bits of each 8-bit channel are zero and
the top bits are not replicated), with alpha 255; in particular a 5-bit
channel of 31 yields 248, not 255. -/
theorem C1_palette_shift (palSrc : List Nat) (i : Nat) (h1 : 1 ≤ i) (h2 : i < 16) :
    (buildPalette palSrc false).getD i 0 / 16777216 % 256 = palColor palSrc i % 32 * 8 ∧
    (buildPalette palSrc false).getD i 0 / 65536 % 256 = palColor palSrc i / 32 % 32 * 8 ∧
    (buildPalette palSrc false).getD i 0 / 256 % 256 = palColor palSrc i / 1024 % 32 * 8 ∧
    (buildPalette palSrc false).getD i 0 % 256 = 255 ∧
    (buildPalette palSrc false).getD i 0 / 16777216 % 256 % 8 = 0 ∧
    (buildPalette palSrc false).getD i 0 / 65536 % 256 % 8 = 0 ∧
    (buildPalette palSrc false).getD i 0 / 256 % 256 % 8 = 0 := by
  rw [buildPalette_getD palSrc false i h1 h2]
  unfold paletteEntry
  rw [if_neg (by simp)]
  have h := unpack4 (palColor palSrc i % 32 * 8) (palColor palSrc i / 32 % 32 * 8)
    (palColor palSrc i / 1024 % 32 * 8) (by omega) (by omega) (by omega)
  refine ⟨h.1, h.2.1, h.2.2.1, h.2.2.2, ?_, ?_, ?_⟩
  · rw [h.1]; omega
  · rw [h.2.1]; omega
  · rw [h.2.2.1]; omega

/-- C1 witness: the amended theorem applied to palette entry 1 holding the
blue-all-set RGB555 value 31744. -/
theorem C1_witness :
    (buildPalette [0, 0, 0, 124] false).getD 1 0 / 16777216 % 256 =
      palColor [0, 0, 0, 124] 1 % 32 * 8 ∧
    (buildPalette [0, 0, 0, 124] false).getD 1 0 / 65536 % 256 =
      palColor [0, 0, 0, 124] 1 / 32 % 32 * 8 ∧
    (buildPalette [0, 0, 0, 124] false).getD 1 0 / 256 % 256 =
      palColor [0, 0, 0, 124] 1 / 1024 % 32 * 8 ∧
    (buildPalette [0, 0, 0, 124] false).getD 1 0 % 256 = 255 ∧
    (buildPalette [0, 0, 0, 124] false).getD 1 0 / 16777216 % 256 % 8 = 0 ∧
    (buildPalette [0, 0, 0, 124] false).getD 1 0 / 65536 % 256 % 8 = 0 ∧
    (buildPalette [0, 0, 0, 124] false).getD 1 0 / 256 % 256 % 8 = 0 :=
  C1_palette_shift [0, 0, 0, 124] 1 (by decide) (by decide)

/-- C3 counterexample: for source pure white (RGB555 value 32767, 5-bit
channels 31, 31, 31) the grayscale variant yields 248 on all three output
channels, not 255: the channels expand to 248, not 255, and the luma of
248, 248, 248 is 248. -/
theorem C3_counterexample :
    palColor [0, 0, 255, 127] 1 = 32767 ∧
    (buildPalette [0, 0, 255, 127] true).getD 1 0 / 16777216 % 256 = 248 ∧
    (buildPalette [0, 0, 255, 127] true).getD 1 0 / 65536 % 256 = 248 ∧
    (buildPalette [0, 0, 255, 127] true).getD 1 0 / 256 % 256 = 248 ∧
    (buildPalette [0, 0, 255, 127] true).getD 1 0 / 16777216 % 256 ≠ 255 := by decide

/-- C3 as amended: under the grayscale variant every palette entry 1
through 15 carries the luma (r * 77 + g * 150 + b * 29) / 256 of the
shifted 8-bit channels (each 5-bit value v expanded to v * 8) on all three
output channels; since 77 + 150 + 29 = 256, equal 5-bit source channels v
give luma exactly v * 8, so pure white 31, 31, 31 yields 248, not 255. -/
theorem C3_grayscale_luma (palSrc : List Nat) (i : Nat) (h1 : 1 ≤ i) (h2 : i < 16) :
    ((buildPalette palSrc true).getD i 0 / 16777216 % 256 =
      lumOf (palColor palSrc i % 32 * 8) (palColor palSrc i / 32 % 32 * 8)
        (palColor palSrc i / 1024 % 32 * 8)) ∧
    ((buildPalette palSrc true).getD i 0 / 65536 % 256 =
      lumOf (palColor palSrc i % 32 * 8) (palColor palSrc i / 32 % 32 * 8)
        (palColor palSrc i / 1024 % 32 * 8)) ∧
    ((buildPalette palSrc true).getD i 0 / 256 % 256 =
      lumOf (palColor palSrc i % 32 * 8) (palColor palSrc i / 32 % 32 * 8)
        (palColor palSrc i / 1024 % 32 * 8)) ∧
    (buildPalette palSrc true).getD i 0 % 256 = 255 ∧
    (∀ v, v < 32 → lumOf (v * 8) (v * 8) (v * 8) = v * 8) := by
  rw [buildPalette_getD palSrc true i h1 h2]
  unfold paletteEntry
  rw [if_pos rfl]
  have h := unpack4
    (lumOf (palColor palSrc i % 32 * 8) (palColor palSrc i / 32 % 32 * 8)
      (palColor palSrc i / 1024 % 32 * 8))
    (lumOf (palColor palSrc i % 32 * 8) (palColor palSrc i / 32 % 32 * 8)
      (palColor palSrc i / 1024 % 32 * 8))
    (lumOf (palColor palSrc i % 32 * 8) (palColor palSrc i / 32 % 32 * 8)
      (palColor palSrc i / 1024 % 32 * 8))
    (lumOf_lt _ _ _) (lumOf_lt _ _ _) (lumOf_lt _ _ _)
  refine ⟨h.1, h.2.1, h.2.2.1, h.2.2.2, ?_⟩
  intro v hv
  unfold lumOf
  omega

/-- C3 witness: the amended theorem applied to palette entry 1 holding the
white RGB555 value 32767, together with the luma of pure white. -/
theorem C3_witness :
    ((buildPalette [0, 0, 255, 127] true).getD 1 0 / 16777216 % 256 =
      lumOf (palColor [0, 0, 255, 127] 1 % 32 * 8)
        (palColor [0, 0, 255, 127] 1 / 32 % 32 * 8)
        (palColor [0, 0, 255, 127] 1 / 1024 % 32 * 8)) ∧
    lumOf (31 * 8) (31 * 8) (31 * 8) = 31 * 8 := by
  have h := C3_grayscale_luma [0, 0, 255, 127] 1 (by decide) (by decide)
  exact ⟨h.1, h.2.2.2.2 31 (by decide)⟩

lemma findOrDecode_full_miss (st : CacheState) (species : Nat) (grayscale ok : Bool)
    (hfull : ∀ i, st.inited i = true)
    (hmiss : ∀ i, st.keys i ≠ cacheKey species grayscale) :
    findOrDecode st species grayscale ok =
      (if ok then
        (some st.nextEvict,
          { st with
            keys := fun j => if j = st.nextEvict then cacheKey species grayscale else st.keys j
            img := fun j => if j = st.nextEvict then cacheKey species grayscale else st.img j
            nextEvict := advanceEvict st.nextEvict })
      else (none, { st with nextEvict := advanceEvict st.nextEvict })) := by
  have hf1 : (List.finRange 8).find?
      (fun i => st.inited i && (st.keys i == cacheKey species grayscale)) = none := by
    rw [List.find?_eq_none]
    intro i _
    simp [hmiss i]
  have hf2 : (List.finRange 8).find? (fun i => ! st.inited i) = none := by
    rw [List.find?_eq_none]
    intro i _
    simp [hfull i]
  unfold findOrDecode
  rw [hf1, hf2]

/-- C7: when every slot of the cache is in use and no slot holds the
requested key, the round-robin cursor advances by exactly one modulo 8
whether the decode succeeds or fails; if the cursor sits at 0 the request
decodes into slot 0 (the evicted slot) and on success installs the new key
there; and any request answered by a cache hit or by a free slot leaves the
cursor untouched, so filling the cache by such requests keeps the cursor
at its starting slot 0. -/
theorem C7_round_robin (st : CacheState) (species : Nat) (grayscale ok : Bool)
    (hfull : ∀ i, st.inited i = true)
    (hmiss : ∀ i, st.keys i ≠ cacheKey species grayscale) :
    ((findOrDecode st species grayscale ok).2.nextEvict.val = (st.nextEvict.val + 1) % 8) ∧
    (st.nextEvict = 0 → ok = true →
      (findOrDecode st species grayscale ok).1 = some 0 ∧
      (findOrDecode st species grayscale ok).2.keys 0 = cacheKey species grayscale) ∧
    (∀ st2 sp2 g2 ok2,
      ((∃ i, st2.inited i = true ∧ st2.keys i = cacheKey sp2 g2) ∨
        (∃ i, st2.inited i = false)) →
      (findOrDecode st2 sp2 g2 ok2).2.nextEvict = st2.nextEvict) := by
  refine ⟨?_, ?_, ?_⟩
  · rw [findOrDecode_full_miss st species grayscale ok hfull hmiss]
    cases ok <;> simp [advanceEvict]
  · intro hc hok
    subst hok
    rw [findOrDecode_full_miss st species grayscale true hfull hmiss]
    rw [hc]
    simp
  · intro st2 sp2 g2 ok2 hne
    cases hf1 : (List.finRange 8).find?
        (fun i => st2.inited i && (st2.keys i == cacheKey sp2 g2)) with
    | some j => simp [findOrDecode, hf1]
    | none =>
      cases hf2 : (List.finRange 8).find? (fun i => ! st2.inited i) with
      | some j => cases ok2 <;> simp [findOrDecode, hf1, hf2]
      | none =>
        exfalso
        rcases hne with ⟨i, hi, hk⟩ | ⟨i, hi⟩
        · have hni := List.find?_eq_none.mp hf1 i (List.mem_finRange i)
          simp [hi, hk] at hni
        · have hni := List.find?_eq_none.mp hf2 i (List.mem_finRange i)
          simp [hi] at hni

/-- C7 witness: the theorem applied to a full cache with keys 1 to 8 and
cursor 0, requesting a ninth distinct key with a succeeding decode, and a
hit request for the cached key 3 that leaves the cursor alone. -/
theorem C7_witness :
    (findOrDecode fullCache7 100 false true).2.nextEvict.val =
      (fullCache7.nextEvict.val + 1) % 8 ∧
    (findOrDecode fullCache7 100 false true).1 = some 0 ∧
    (findOrDecode fullCache7 100 false true).2.keys 0 = cacheKey 100 false ∧
    (findOrDecode fullCache7 3 false true).2.nextEvict = fullCache7.nextEvict := by
  have h := C7_round_robin fullCache7 100 false true (by decide) (by decide)
  have h2 := h.2.1 rfl rfl
  exact ⟨h.1, h2.1, h2.2, h.2.2 fullCache7 3 false true (by decide)⟩

/-- C2 counterexample: with all 8 slots in use under the keys 1 to 8 and
the cursor at 0, a request for the absent key 100 whose decode fails
returns nothing to the caller, yet slot 0 is not emptied and its prior
content is not discarded: it still holds key 1 and its image, and a
subsequent request for key 1 hits slot 0 without any decode. -/
theorem C2_counterexample :
    (findOrDecode fullCache2 100 false false).1 = none ∧
    (findOrDecode fullCache2 100 false false).2.inited 0 = true ∧
    (findOrDecode fullCache2 100 false false).2.keys 0 = 1 ∧
    (findOrDecode fullCache2 100 false false).2.img 0 = 1 ∧
    (findOrDecode (findOrDecode fullCache2 100 false false).2 1 false false).1 = some 0 := by
  decide

/-- C2 as amended: when all slots are in use and the decode into the
round-robin-evicted slot fails, the caller is handed nothing for the new
key and the cursor still advances, but the evicted slot is left unchanged,
keeping its prior key, image and in-use flag; the new key is not
associated with any slot, so the cache never retains a stale image under
the new key. -/
theorem C2_evict_fail_keeps_slot (st : CacheState) (species : Nat) (grayscale : Bool)
    (hfull : ∀ i, st.inited i = true)
    (hmiss : ∀ i, st.keys i ≠ cacheKey species grayscale) :
    (findOrDecode st species grayscale false).1 = none ∧
    (findOrDecode st species grayscale false).2.keys = st.keys ∧
    (findOrDecode st species grayscale false).2.img = st.img ∧
    (findOrDecode st species grayscale false).2.inited = st.inited ∧
    (findOrDecode st species grayscale false).2.nextEvict = advanceEvict st.nextEvict ∧
    (∀ j, (findOrDecode st species grayscale false).2.keys j ≠ cacheKey species grayscale) := by
  rw [findOrDecode_full_miss st species grayscale false hfull hmiss]
  exact ⟨rfl, rfl, rfl, rfl, rfl, hmiss⟩

/-- C2 witness: the amended theorem applied to the full cache with keys
1 to 8 and cursor 0, requesting the absent key 100 with a failing decode. -/
theorem C2_witness :
    (findOrDecode fullCache2 100 false false).1 = none ∧
    (findOrDecode fullCache2 100 false false).2.keys = fullCache2.keys ∧
    (findOrDecode fullCache2 100 false false).2.img = fullCache2.img ∧
    (findOrDecode fullCache2 100 false false).2.inited = fullCache2.inited ∧
    (findOrDecode fullCache2 100 false false).2.nextEvict = advanceEvict fullCache2.nextEvict ∧
    (∀ j, (findOrDecode fullCache2 100 false false).2.keys j ≠ cacheKey 100 false) :=
  C2_evict_fail_keeps_slot fullCache2 100 false (by decide) (by decide)

lemma pack4 (a b c d : Nat) (ha : a < 256) (hb : b < 256) (hc : c < 256) (hd : d < 256) :
    bytes32 (a + 256 * b + 65536 * c + 16777216 * d) = [a, b, c, d] := by
  unfold bytes32
  rw [show (a + 256 * b + 65536 * c + 16777216 * d) % 256 = a by omega,
    show (a + 256 * b + 65536 * c + 16777216 * d) / 256 % 256 = b by omega,
    show (a + 256 * b + 65536 * c + 16777216 * d) / 65536 % 256 = c by omega,
    show (a + 256 * b + 65536 * c + 16777216 * d) / 16777216 % 256 = d by omega]

lemma bytes32_read32 (l : List Nat) (off : Nat) :
    bytes32 (read32 l off) =
      [u8get l off, u8get l (off + 1), u8get l (off + 2), u8get l (off + 3)] := by
  unfold read32
  exact pack4 _ _ _ _ (u8get_lt l off) (u8get_lt l (off + 1)) (u8get_lt l (off + 2))
    (u8get_lt l (off + 3))

lemma flatMap_bytes32 (l : List Nat) (base : Nat) :
    ∀ n, (List.range n).flatMap (fun i => bytes32 (read32 l (base + 4 * i))) =
      (List.range (4 * n)).map (fun j => u8get l (base + j)) := by
  intro n
  induction n with
  | zero => rfl
  | succ m ih =>
    rw [List.range_succ, List.flatMap_append, ih,
      show 4 * (m + 1) = 4 * m + 4 by ring, List.range_add, List.map_append]
    congr 1
    rw [List.map_map]
    show bytes32 (read32 l (base + 4 * m)) ++ [] = _
    rw [List.append_nil, bytes32_read32]
    show _ = [0, 1, 2, 3].map fun x => u8get l (base + (4 * m + x))
    simp [Nat.add_assoc]

/-- C8: the record decoder forms its decryption key as the xor of the
32-bit identifier and owner header words and xor-decrypts the 48-byte
region at offset 0x20 in 4-byte words; for a record with identifier 0 and
owner 0 the key is 0 and the decrypted region equals the raw bytes, and
for any identifier with permutation index pid mod 24 equal to 0 the four
roles Growth, Attacks, EVs, Misc are read from the 12-byte slots at
offsets 0, 12, 24, 36, the source ordering 0 1 2 3. -/
theorem C8_record_decrypt (pokemon : List Nat)
    (h1 : read32 pokemon 0 = 0) (h2 : read32 pokemon 4 = 0) :
    slotKey pokemon = 0 ∧
    decryptSubstructs pokemon (slotKey pokemon) =
      (List.range 48).map (fun j => u8get pokemon (32 + j)) ∧
    (∀ pid, pid % 24 = 0 →
      findSubstructOffset pid 0 = 0 ∧ findSubstructOffset pid 1 = 12 ∧
      findSubstructOffset pid 2 = 24 ∧ findSubstructOffset pid 3 = 36) := by
  have hk : slotKey pokemon = 0 := by
    unfold slotKey
    rw [h1, h2]
    rfl
  refine ⟨hk, ?_, ?_⟩
  · rw [hk]
    unfold decryptSubstructs
    simp only [Nat.xor_zero]
    exact flatMap_bytes32 pokemon 32 12
  · intro pid hp
    unfold findSubstructOffset
    rw [hp]
    exact ⟨rfl, rfl, rfl, rfl⟩

/-- C8 witness: the theorem applied to a concrete record with zero header
identifiers and bytes 8 through 99 equal to their own index. -/
theorem C8_witness :
    slotKey cPoke = 0 ∧
    decryptSubstructs cPoke (slotKey cPoke) =
      (List.range 48).map (fun j => u8get cPoke (32 + j)) ∧
    (findSubstructOffset 0 0 = 0 ∧ findSubstructOffset 0 1 = 12 ∧
      findSubstructOffset 0 2 = 24 ∧ findSubstructOffset 0 3 = 36) := by
  have h := C8_record_decrypt cPoke (by decide) (by decide)
  exact ⟨h.1, h.2.1, h.2.2 0 rfl⟩

/-- C9: readSlot yields none, marking the record an invalid empty party
slot, exactly when the decrypted species id is 0 or at least the
species-count limit of the profile; readSlot has no other failure mode, and when it
yields a record the species field equals the decrypted species id and
satisfies the rule. -/
theorem C9_invalid_species_rule (slot : List Nat) (speciesCount : Nat) :
    (readSlot slot speciesCount = none ↔
      slotSpecies slot = 0 ∨ speciesCount ≤ slotSpecies slot) ∧
    (∀ s, readSlot slot speciesCount = some s →
      s.species = slotSpecies slot ∧ s.species ≠ 0 ∧ s.species < speciesCount) := by
  constructor
  · unfold readSlot
    split
    · rename_i h
      exact iff_of_true rfl h
    · rename_i h
      exact iff_of_false (by simp) h
  · intro s hs
    unfold readSlot at hs
    split at hs
    · exact absurd hs (by simp)
    · rename_i h
      push_neg at h
      cases Option.some.inj hs
      exact ⟨rfl, h.1, h.2⟩

/-- C9 witness: the theorem applied to the all-zero record, which is
invalid, and to a record of species 25, which decodes with that species. -/
theorem C9_witness :
    readSlot zSlot 412 = none ∧
    (vOut.species = slotSpecies vSlot ∧ vOut.species ≠ 0 ∧ vOut.species < 412) :=
  ⟨(C9_invalid_species_rule zSlot 412).1.mpr (Or.inl (by decide)),
   (C9_invalid_species_rule vSlot 412).2 vOut (by decide)⟩
